import Mathlib

/-!
# BeadsLog — verification of the devlog onboarding tool's specification

The repository holds fixture-generation scripts (`setup_init_tests.py`,
`setup_sandbox_1.py`) for a devlog onboarding tool.  The tool itself
(RepositoryProbe, DevlogIndexValidator, ProtocolBlockEditor, HookInstaller,
OnboardingOrchestrator) is specified in `spec.md` but its code is not in the
repository, so those components are modelled from the spec; the fixture
scripts are embedded from their Python source.

Text documents are modelled as their list of lines (`List String`); the
newline terminating each line is implicit, so a file whose content ends in a
newline corresponds to the list whose last element is its last visible line.
-/

namespace BeadsLog

/-! ## Character-level utilities -/

/-- `charsStartsWith n h` decides whether `n` is an initial segment of `h`. -/
def charsStartsWith : List Char → List Char → Bool
  | [], _ => true
  | _ :: _, [] => false
  | a :: n, b :: h => a = b && charsStartsWith n h

/-- `charsContain n h` decides whether `n` occurs contiguously inside `h`. -/
def charsContain (n : List Char) : List Char → Bool
  | [] => charsStartsWith n []
  | b :: h => charsStartsWith n (b :: h) || charsContain n h

/-- Substring test on strings, via the underlying character lists. -/
def containsSubstr (hay needle : String) : Bool :=
  charsContain needle.data hay.data

/-- A line is blank when all of its characters are whitespace. -/
def isBlankLine (l : String) : Bool :=
  l.data.all Char.isWhitespace

/-- Modelled from the spec: a Markdown table line of the index document
starts with a pipe character (spec §4.2 / §9: a hand-written scanner that
finds the table start). -/
def isTableLine (l : String) : Bool :=
  charsStartsWith ['|'] l.data

/-! ## DevlogIndexValidator (modelled from the spec, §4.2)

`parse` scans top-down for the first Markdown table, keeps everything before
it verbatim as header, parses table rows positionally by their four fixed
columns, and requires everything after the table's last row to be
empty/whitespace-only; a non-whitespace trailing line raises
`TrailingContentError` naming the offending line.  `render` is the exact
inverse: header verbatim, then the table as the final element. -/

/-- One table row: the four cells, stored as their raw (untrimmed) character
content between the pipe separators. -/
structure Row where
  subject : List Char
  problems : List Char
  date : List Char
  devlog : List Char
deriving DecidableEq, Repr

/-- A parsed index document: header lines verbatim, then the table rows. -/
structure DevlogIndex where
  header : List String
  rows : List Row
deriving DecidableEq, Repr

/-- Corruption errors of the index document, naming the offending line. -/
inductive CorruptionError where
  | trailingContent (line : String)
  | malformedRow (line : String)
deriving DecidableEq, Repr

/-- Split a character list at every pipe character: the cell contents. -/
def splitCells : List Char → List (List Char)
  | [] => [[]]
  | c :: cs =>
    let r := splitCells cs
    if c = '|' then [] :: r
    else
      match r with
      | [] => [[c]]
      | x :: xs => (c :: x) :: xs

/-- Reassemble cell contents with pipe separators: inverse of `splitCells`. -/
def joinCells : List (List Char) → List Char
  | [] => []
  | [x] => x
  | x :: y :: xs => x ++ '|' :: joinCells (y :: xs)

/-- Parse one table line into its four cells; `none` when the line does not
consist of exactly four cells between leading and trailing pipes. -/
def parseRow (l : String) : Option Row :=
  match splitCells l.data with
  | [[], a, b, c, d, []] => some ⟨a, b, c, d⟩
  | _ => none

/-- Render one row back to its table line. -/
def renderRow (r : Row) : String :=
  ⟨joinCells [[], r.subject, r.problems, r.date, r.devlog, []]⟩

/-- Header part: the lines before the first table line, kept verbatim. -/
def splitAtTable : List String → List String × List String
  | [] => ([], [])
  | l :: ls =>
    if isTableLine l then ([], l :: ls)
    else
      let p := splitAtTable ls
      (l :: p.1, p.2)

/-- Table part: the maximal run of table lines, and whatever trails it. -/
def takeTable : List String → List String × List String
  | [] => ([], [])
  | l :: ls =>
    if isTableLine l then
      let p := takeTable ls
      (l :: p.1, p.2)
    else ([], l :: ls)

/-- First non-whitespace line of a list, if any. -/
def firstNonBlank : List String → Option String
  | [] => none
  | l :: ls => if isBlankLine l then firstNonBlank ls else some l

/-- Parse every table line as a four-column row. -/
def parseRows : List String → Except CorruptionError (List Row)
  | [] => .ok []
  | l :: ls =>
    match parseRow l with
    | none => .error (.malformedRow l)
    | some r => (parseRows ls).map (r :: ·)

/-- Modelled from the spec: `DevlogIndexValidator.parse` (spec §4.2), whose
code is not in the repository.  Scans top-down for the first table, keeps the
header verbatim, rejects any non-whitespace content after the table's last
row with `TrailingContentError` naming the offending line, and parses the
table lines as four-column rows. -/
def parse (ls : List String) : Except CorruptionError DevlogIndex :=
  let p := splitAtTable ls
  let q := takeTable p.2
  match firstNonBlank q.2 with
  | some l => .error (.trailingContent l)
  | none => (parseRows q.1).map (fun rows => ⟨p.1, rows⟩)

/-- Modelled from the spec: `DevlogIndexValidator.render` (spec §4.2), the
exact inverse of `parse`: header verbatim, then the table as the final
element of the document. -/
def render (idx : DevlogIndex) : List String :=
  idx.header ++ idx.rows.map renderRow

/-! ## Index fixtures, transcribed from `setup_init_tests.py` -/

/-- The clean index fixture written by `setup_existing_clean`
(`setup_init_tests.py`), as its list of lines. -/
def cleanIndexLines : List String :=
  [ "# Development Log Index"
  , ""
  , "> [!IMPORTANT]"
  , "> **AI AGENT INSTRUCTIONS:**"
  , "> 1. **APPEND ONLY:** Always add new session rows to the **existing table** at the bottom of this file."
  , "> 2. **NO DUPLICATES:** Never create a new \"Work Index\" header or a second table."
  , "> 3. **STAY AT BOTTOM:** Ensure the table remains the very last element in this file."
  , ""
  , "This index provides a concise record of all development work for easy scanning and pattern recognition across sessions."
  , ""
  , "## Nomenclature Rules:"
  , "- **[fix]** - Bug fixes and error resolution"
  , ""
  , "## Work Index"
  , ""
  , "| Subject | Problems | Date | Devlog |"
  , "|---------|----------|------|---------|"
  , "| [init] Setup | Initial devlog structure setup | 2024-01-01 | [2024-01-01_setup.md](2024-01-01_setup.md) |"
  ]

/-- The corrupt index fixture written by `setup_existing_corrupt`
(`setup_init_tests.py`): a sentence follows the table. -/
def corruptIndexLines : List String :=
  [ "# Development Log Index"
  , ""
  , "## Work Index"
  , ""
  , "| Subject | Problems | Date | Devlog |"
  , "|---------|----------|------|---------|"
  , "| [init] Setup | Initial devlog structure setup | 2024-01-01 | [2024-01-01_setup.md](2024-01-01_setup.md) |"
  , ""
  , "This footer should not be here and should cause an error."
  ]

deriving instance DecidableEq for Except

/-- Does the list start with a table line? -/
def headIsTable : List String → Bool
  | [] => false
  | l :: _ => isTableLine l

/-- Does the list not start with a table line (vacuously true when empty)? -/
def headNotTable : List String → Bool
  | [] => true
  | l :: _ => !isTableLine l

/-! ## ProtocolBlockEditor (modelled from the spec, §4.3 / §9)

The protocol block is a delimited region between a start marker line and an
end marker line.  Detection is a three-state scan over lines (before-start,
inside-block, after-end); duplicated or unmatched markers are a malformed
state, never repaired. -/

/-- The block's start marker line, as in the fixtures of
`setup_init_tests.py`. -/
def startMarker : String := "<!-- BD_PROTOCOL_START -->"

/-- The block's end marker line, as in the fixtures of
`setup_init_tests.py`. -/
def endMarker : String := "<!-- BD_PROTOCOL_END -->"

/-- Is this line one of the two marker lines? -/
def isMarker (l : String) : Bool := l = startMarker || l = endMarker

/-- Result of scanning a host file for the protocol block. -/
inductive ScanResult where
  | absent
  | malformed
  | found (before content after : List String)
deriving DecidableEq, Repr

/-- After-end state of the scan: any further marker is malformed. -/
def scanAfter : List String → Option (List String)
  | [] => some []
  | l :: ls => if isMarker l then none else (scanAfter ls).map (l :: ·)

/-- Inside-block state of the scan: collect content until the end marker; a
second start marker or a missing end marker is malformed. -/
def scanInside : List String → Option (List String × List String)
  | [] => none
  | l :: ls =>
    if l = endMarker then (scanAfter ls).map (fun a => (([] : List String), a))
    else if l = startMarker then none
    else (scanInside ls).map (fun p => (l :: p.1, p.2))

/-- Modelled from the spec: the three-state scan of `ProtocolBlockEditor`
(spec §9), whose code is not in the repository.  Finds the unique well-formed
block, or reports it absent or malformed. -/
def scanBlock : List String → ScanResult
  | [] => .absent
  | l :: ls =>
    if l = startMarker then
      match scanInside ls with
      | some (c, a) => .found [] c a
      | none => .malformed
    else if l = endMarker then .malformed
    else
      match scanBlock ls with
      | .absent => .absent
      | .malformed => .malformed
      | .found b c a => .found (l :: b) c a

/-- The four block states reported by `detect` (spec §4.3). -/
inductive BlockState where
  | Absent
  | Current
  | Outdated
  | Malformed
deriving DecidableEq, Repr

/-- Modelled from the spec: `ProtocolBlockEditor.detect` (spec §4.3), a pure
read deciding whether a mutation is needed, comparing the block's content
with the tool's current content. -/
def detect (ls current : List String) : BlockState :=
  match scanBlock ls with
  | .absent => .Absent
  | .malformed => .Malformed
  | .found _ c _ => if c = current then .Current else .Outdated

/-- The error raised on a malformed block (spec §4.3): never a best-effort
fix. -/
inductive MalformedBlockError where
  | malformedBlock
deriving DecidableEq, Repr

/-- Modelled from the spec: `ProtocolBlockEditor.upsert` (spec §4.3), whose
code is not in the repository.  Absent block: append at end of file; present
with identical content: byte-identical no-op; present with different
content: replace only the marker-delimited span; malformed: fail. -/
def upsert (ls newContent : List String) : Except MalformedBlockError (List String) :=
  match scanBlock ls with
  | .absent => .ok (ls ++ startMarker :: (newContent ++ [endMarker]))
  | .malformed => .error .malformedBlock
  | .found b c a =>
    if c = newContent then .ok ls
    else .ok (b ++ startMarker :: (newContent ++ endMarker :: a))

/-- The effective file transformation of the agent-file mutation: on a
malformed block the error propagates and the host file is left unchanged. -/
def upsertFile (ls newContent : List String) : List String :=
  match upsert ls newContent with
  | .ok r => r
  | .error _ => ls

/-! ## HookInstaller (modelled from the spec, §4.4)

Ownership of a hook file is inferred from a stable signature comment checked
by substring match; foreign hooks are never overwritten. -/

/-- The ownership signature line embedded in the tool's hook script, as
written by `setup_hooks_installed` in `setup_init_tests.py`. -/
def hookSignature : String := "# Auto-sync devlogs to beads database"

/-- The hook script body written by `setup_hooks_installed`
(`setup_init_tests.py`), transcribed from the Python source. -/
def ownedHookBody : String :=
  "#!/bin/sh\n# Auto-sync devlogs to beads database\nif [ -f \"./bd\" ]; then\n    ./bd devlog sync >/dev/null 2>&1 &\nelif command -v bd >/dev/null 2>&1;\n    bd devlog sync >/dev/null 2>&1 &\nfi\n"

/-- The foreign hook script body written by `setup_hook_conflict`
(`setup_init_tests.py`): a pre-existing non-beads hook. -/
def foreignHookBody : String :=
  "#!/bin/sh\necho \"Running existing hook...\"\n# Some linting command\nexit 0\n"

/-- A hook file on disk: its body and its executable bit. -/
structure HookFile where
  body : String
  exec : Bool
deriving DecidableEq, Repr

/-- Ownership test: does the body carry the tool's signature (substring
match, spec §9)? -/
def isOurs (body : String) : Bool := containsSubstr body hookSignature

/-- The tool's current hook script body (spec §6: a shell script invoking
the sync command in the background). -/
def hookScript : String := ownedHookBody

/-- Outcomes of `HookInstaller.install` (spec §4.4). -/
inductive HookOutcome where
  | Installed
  | Upgraded
  | SkippedForeign
deriving DecidableEq, Repr

/-- Modelled from the spec: `HookInstaller.install` (spec §4.4), whose code
is not in the repository.  No prior file: install executable; prior file
with our signature: replace content; prior foreign file: leave untouched and
report `SkippedForeign`.  Returns the outcome and the resulting file. -/
def install (prior : Option HookFile) (scriptBody : String) : HookOutcome × HookFile :=
  match prior with
  | none => (.Installed, ⟨scriptBody, true⟩)
  | some f =>
    if isOurs f.body then (.Upgraded, ⟨scriptBody, true⟩)
    else (.SkippedForeign, f)

/-! ## RepositoryProbe and OnboardingOrchestrator (modelled from the spec,
§4.1 / §4.5)

A repository working tree is modelled as a record of the files the tool
inspects; file contents are lists of lines. -/

/-- A working tree, as far as the tool inspects it. -/
structure Repo where
  hasVcs : Bool
  devlogDir : Bool
  indexFile : Option (List String)
  promptFile : Option (List String)
  sidecarFile : Option (List String)
  agentsMd : Option (List String)
  cursorrules : Option (List String)
  postCommit : Option HookFile
  postMerge : Option HookFile
deriving DecidableEq, Repr

/-- Which agent-instruction file hosts the protocol block (spec §3). -/
inductive AgentFileKind where
  | noAgentFile
  | AGENTS_MD
  | CURSORRULES
deriving DecidableEq, Repr

/-- Hook ownership as reported by the probe (spec §3). -/
inductive Ownership where
  | absent
  | ours
  | foreign
deriving DecidableEq, Repr

/-- The probe's immutable snapshot (spec §3). -/
structure RepositoryState where
  hasVcs : Bool
  devlogDirExists : Bool
  indexExists : Bool
  promptExists : Bool
  issuesSidecarExists : Bool
  agentFileKind : AgentFileKind
  postCommitOwnership : Ownership
  postMergeOwnership : Ownership
deriving DecidableEq, Repr

/-- Ownership of a hook path, from the signature in its body. -/
def ownershipOf : Option HookFile → Ownership
  | none => .absent
  | some f => if isOurs f.body then .ours else .foreign

/-- Modelled from the spec: `RepositoryProbe` (spec §4.1), whose code is not
in the repository.  A pure, total snapshot: read-only probing never fails;
on a non-repository it simply reports `hasVcs = false`.  The agent file is
determined by checking `AGENTS.md` before `.cursorrules`, first match
wins. -/
def probe (r : Repo) : RepositoryState :=
  { hasVcs := r.hasVcs
  , devlogDirExists := r.devlogDir
  , indexExists := r.indexFile.isSome
  , promptExists := r.promptFile.isSome
  , issuesSidecarExists := r.sidecarFile.isSome
  , agentFileKind :=
      if r.agentsMd.isSome then .AGENTS_MD
      else if r.cursorrules.isSome then .CURSORRULES
      else .noAgentFile
  , postCommitOwnership := ownershipOf r.postCommit
  , postMergeOwnership := ownershipOf r.postMerge }

/-- Modelled from the spec: the tool's current protocol block content
(spec §4.5: the instruction block upserted into the agent file). -/
def protocolContent : List String :=
  [ "# Beads Devlog Protocol"
  , "BEFORE ANYTHING ELSE: run the devlog onboarding command." ]

/-- The full block: both markers around the tool's content. -/
def protocolBlock : List String := startMarker :: (protocolContent ++ [endMarker])

/-- Modelled from the spec: the `AGENTS.md` created when no agent file
exists — the protocol block plus a minimal scaffold (spec §4.5). -/
def agentTemplate : List String := protocolBlock ++ ["", "# Agent Instructions"]

/-- Modelled from the spec: the scaffolded index — header plus an empty
table (spec §4.5). -/
def indexTemplate : List String :=
  [ "# Development Log Index"
  , ""
  , "## Work Index"
  , ""
  , "| Subject | Problems | Date | Devlog |"
  , "|---------|----------|------|---------|" ]

/-- Modelled from the spec: the scaffolded prompt template file
(existence-checked only; content as in the clean fixture). -/
def promptTemplate : List String := ["# Prompt content"]

/-- Outcome of one orchestrator action (spec §4.5 / §7): either a mutation,
no change, a non-fatal foreign-hook warning, or a named failure. -/
inductive Outcome where
  | noChange
  | created
  | installed
  | upgraded
  | skippedForeign
  | failedCorrupt (line : String)
  | failedMissingPrompt
  | failedMalformedBlock
deriving DecidableEq, Repr

/-- Is this outcome a named failure? -/
def Outcome.isFatal : Outcome → Bool
  | .failedCorrupt _ => true
  | .failedMissingPrompt => true
  | .failedMalformedBlock => true
  | _ => false

/-- Did this outcome mutate the working tree? -/
def Outcome.mutating : Outcome → Bool
  | .created => true
  | .installed => true
  | .upgraded => true
  | _ => false

/-- One report per orchestrator action (spec §7: one outcome per attempted
action). -/
structure Reports where
  scaffold : Outcome
  indexCheck : Outcome
  promptCheck : Outcome
  agentFile : Outcome
  hookPostCommit : Outcome
  hookPostMerge : Outcome
deriving DecidableEq, Repr

/-- Every action reported `noChange`. -/
def Reports.allNoChange (re : Reports) : Bool :=
  re = ⟨.noChange, .noChange, .noChange, .noChange, .noChange, .noChange⟩

/-- No action failed: the run's terminal state is `Ready` (spec §4.5; the
foreign-hook warning is non-fatal, spec §7). -/
def Reports.ready (re : Reports) : Bool :=
  !re.scaffold.isFatal && !re.indexCheck.isFatal && !re.promptCheck.isFatal &&
  !re.agentFile.isFatal && !re.hookPostCommit.isFatal && !re.hookPostMerge.isFatal

/-- No foreign-hook warning was reported. -/
def Reports.noForeign (re : Reports) : Bool :=
  !(re.hookPostCommit = .skippedForeign) && !(re.hookPostMerge = .skippedForeign)

/-- No action mutated the working tree. -/
def Reports.noMutation (re : Reports) : Bool :=
  !re.scaffold.mutating && !re.indexCheck.mutating && !re.promptCheck.mutating &&
  !re.agentFile.mutating && !re.hookPostCommit.mutating && !re.hookPostMerge.mutating

/-- Scaffolding action (spec §4.5, row 2): when the devlog directory is
absent, create it together with the empty sidecar, the index (header plus
empty table) and the prompt file, as one unit. -/
def stepScaffold (r : Repo) : Outcome × Repo :=
  if r.devlogDir then (.noChange, r)
  else
    (.created,
      { r with devlogDir := true
             , indexFile := some indexTemplate
             , promptFile := some promptTemplate
             , sidecarFile := some [] })

/-- Index validation action (spec §4.5, row 3): an existing index whose
table is not the last element is `CorruptIndex`; it is never scaffolded
over, never modified.  An absent index is the expected not-yet-initialized
state, not corruption (spec §4.2). -/
def stepIndexCheck (r : Repo) : Outcome :=
  match r.indexFile with
  | none => .noChange
  | some ls =>
    match parse ls with
    | .ok _ => .noChange
    | .error (.trailingContent l) => .failedCorrupt l
    | .error (.malformedRow l) => .failedCorrupt l

/-- Prompt check (spec §4.5, row 4): onboarding cannot proceed without the
prompt template. -/
def stepPromptCheck (r : Repo) : Outcome :=
  if r.promptFile.isSome then .noChange else .failedMissingPrompt

/-- Agent-file mutation on a present host (spec §4.5, row 6): upsert the
block per §4.3; a malformed block propagates as a failure, never a silent
overwrite. -/
def agentAction (host : List String) : Outcome × List String :=
  match detect host protocolContent with
  | .Current => (.noChange, host)
  | .Malformed => (.failedMalformedBlock, host)
  | .Absent => (.upgraded, upsertFile host protocolContent)
  | .Outdated => (.upgraded, upsertFile host protocolContent)

/-- Agent-file action (spec §4.5, rows 5–6): `AGENTS.md` before
`.cursorrules`, first match wins; with no agent file, create `AGENTS.md`
from the template. -/
def stepAgent (r : Repo) : Outcome × Repo :=
  match r.agentsMd with
  | some host =>
    let p := agentAction host
    (p.1, { r with agentsMd := some p.2 })
  | none =>
    match r.cursorrules with
    | some host =>
      let p := agentAction host
      (p.1, { r with cursorrules := some p.2 })
    | none => (.created, { r with agentsMd := some agentTemplate })

/-- Hook action for one hook path (spec §4.5, row 7): install when absent,
silently upgrade a stale tool-owned hook, never touch a foreign hook.  The
orchestrator skips the write when the installed hook is already current. -/
def stepHook (prior : Option HookFile) : Outcome × HookFile :=
  match prior with
  | none => (.installed, ⟨hookScript, true⟩)
  | some f =>
    if isOurs f.body then
      if f = ⟨hookScript, true⟩ then (.noChange, f)
      else (.upgraded, ⟨hookScript, true⟩)
    else (.skippedForeign, f)

/-- Result of one orchestrator run: `NotARepository` aborts before any
write; otherwise one outcome per action and the resulting tree. -/
inductive RunResult where
  | notARepo
  | ran (reports : Reports) (repo : Repo)
deriving DecidableEq, Repr

/-- The tree after the scaffolding action. -/
def afterScaffold (r : Repo) : Repo := (stepScaffold r).2

/-- The tree after scaffolding and the agent-file action. -/
def afterAgent (r : Repo) : Repo := (stepAgent (afterScaffold r)).2

/-- The tree after all mutating actions, the two hook installs last. -/
def afterHooks (r : Repo) : Repo :=
  { afterAgent r with
      postCommit := some (stepHook (afterAgent r).postCommit).2
    , postMerge := some (stepHook (afterAgent r).postMerge).2 }

/-- The outcome reported for each action of the run, in §4.5's order. -/
def runOutcomes (r : Repo) : Reports :=
  ⟨(stepScaffold r).1
  , stepIndexCheck (afterScaffold r)
  , stepPromptCheck (afterScaffold r)
  , (stepAgent (afterScaffold r)).1
  , (stepHook (afterAgent r).postCommit).1
  , (stepHook (afterAgent r).postMerge).1⟩

/-- Modelled from the spec: `OnboardingOrchestrator` (spec §4.5), whose code
is not in the repository.  Fails fast with `NotARepository` on a tree
without version control; otherwise applies the actions of §4.5's table in
order, recording one outcome each; independent actions still proceed after a
non-global failure (spec §7). -/
def run (r : Repo) : RunResult :=
  if r.hasVcs then .ran (runOutcomes r) (afterHooks r) else .notARepo

/-- The working tree after a run; `NotARepository` leaves it unchanged. -/
def runRepo (r : Repo) : Repo :=
  match run r with
  | .notARepo => r
  | .ran _ r' => r'

/-- The reports of a run, when the run happened at all. -/
def runReports (r : Repo) : Option Reports :=
  match run r with
  | .notARepo => none
  | .ran re _ => some re

/-! ## Repository fixtures, transcribed from `setup_init_tests.py` -/

/-- `AGENTS.md` written by `setup_agent_outdated_tags`: a well-formed block
with old content, followed by user prose. -/
def outdatedAgentLines : List String :=
  [ "<!-- BD_PROTOCOL_START -->"
  , "# Old Protocol"
  , "Do this."
  , "<!-- BD_PROTOCOL_END -->"
  , ""
  , "# My Agent"
  , "Existing rules." ]

/-- `AGENTS.md` written by `setup_agent_garbage_tags`: the closing line is
not the end marker, so the block is never properly closed. -/
def garbageAgentLines : List String :=
  [ "<!-- BD_PROTOCOL_START -->"
  , "# Broken Protocol"
  , "<!-- BD_PROTOCOL_END missing -->"
  , ""
  , "# My Agent"
  , "Existing rules." ]

/-- `.cursorrules` written by `setup_agent_file_variation`. -/
def cursorRulesLines : List String :=
  [ "# Cursor Rules"
  , ""
  , "Some existing rules." ]

/-- `setup_fresh`: version control only, nothing else. -/
def freshRepo : Repo :=
  ⟨true, false, none, none, none, none, none, none, none⟩

/-- `setup_git_not_initialized`: a directory where git init was never
run. -/
def gitNotInitializedRepo : Repo :=
  ⟨false, false, none, none, none, none, none, none, none⟩

/-- `setup_existing_corrupt`: a devlog directory whose index has trailing
prose after the table. -/
def corruptRepo : Repo :=
  ⟨true, true, some corruptIndexLines, none, none, none, none, none, none⟩

/-- `setup_hook_conflict`: an existing non-beads `post-commit` hook. -/
def hookConflictRepo : Repo :=
  ⟨true, false, none, none, none, none, none, some ⟨foreignHookBody, true⟩, none⟩

/-- `setup_agent_file_variation`: `.cursorrules` instead of `AGENTS.md`. -/
def cursorVariationRepo : Repo :=
  ⟨true, false, none, none, none, none, some cursorRulesLines, none, none⟩

/-- `setup_agent_outdated_tags` as a working tree. -/
def outdatedTagsRepo : Repo :=
  ⟨true, false, none, none, none, some outdatedAgentLines, none, none, none⟩

/-- `setup_agent_garbage_tags` as a working tree. -/
def garbageTagsRepo : Repo :=
  ⟨true, false, none, none, none, some garbageAgentLines, none, none, none⟩

/-! ## The sandbox writer `write_file`, embedded from `setup_sandbox_1.py`

The scripted filesystem is a list of existing directories and a list of
files with contents. -/

/-- A filesystem as the sandbox scripts see it. -/
structure FS where
  dirs : List String
  files : List (String × String)
deriving DecidableEq, Repr

/-- Filesystem errors of the sandbox model. -/
inductive FSError where
  | fileExists (d : String)
  | missingDir (d : String)
deriving DecidableEq, Repr

/-- `os.path.dirname` on forward-slash paths: everything before the last
separator, `""` for a bare filename. -/
def dirname (p : String) : String :=
  ⟨((p.data.reverse.dropWhile (fun c => !(c = '/'))).drop 1).reverse⟩

/-- The chain of a directory and its ancestors, innermost first (fueled by
the path length, which bounds the chain's depth). -/
def chainAux : Nat → String → List String
  | 0, _ => []
  | n + 1, d => if d = "" then [] else d :: chainAux n (dirname d)

/-- A directory together with all of its ancestors. -/
def chain (d : String) : List String := chainAux (d.length + 1) d

/-- `os.makedirs(d, exist_ok = ok)`: creates `d` and all missing parents;
errors only when `d` already exists and `exist_ok` is false. -/
def makedirs (fs : FS) (d : String) (ok : Bool) : Except FSError FS :=
  if fs.dirs.contains d && !ok then .error (.fileExists d)
  else .ok { fs with dirs := chain d ++ fs.dirs }

/-- `open(p, "w")` followed by a write: requires the parent directory to
exist (or the path to be a bare filename), then replaces the file. -/
def openWrite (fs : FS) (p content : String) : Except FSError FS :=
  if dirname p = "" || fs.dirs.contains (dirname p) then
    .ok { fs with files := (p, content) :: fs.files.filter (fun q => !(q.1 = p)) }
  else .error (.missingDir (dirname p))

/-- Embedded from `setup_sandbox_1.py`: `write_file(path, content)` —
computes the path's dirname, creates the missing parent directories with
`exist_ok=True` only when the dirname is non-empty, then opens the path for
writing. -/
def write_file (fs : FS) (path content : String) : Except FSError FS :=
  let dirs := dirname path
  if dirs = "" then openWrite fs path content
  else
    match makedirs fs dirs true with
    | .error e => .error e
    | .ok fs' => openWrite fs' path content

/-! ## Lemmas about the index scanner -/

theorem splitAtTable_eq (h rest : List String)
    (hh : ∀ l ∈ h, isTableLine l = false)
    (hr : headIsTable rest = true) :
    splitAtTable (h ++ rest) = (h, rest) := by
  induction h with
  | nil =>
    cases rest with
    | nil => simp [headIsTable] at hr
    | cons l ls => simp [splitAtTable, headIsTable] at hr ⊢; simp [hr]
  | cons l h ih =>
    have hl : isTableLine l = false := hh l (List.mem_cons_self _ _)
    have ih' := ih (fun x hx => hh x (List.mem_cons_of_mem _ hx))
    simp [splitAtTable, hl, ih']

theorem takeTable_eq (t tr : List String)
    (ht : ∀ l ∈ t, isTableLine l = true)
    (htr : headNotTable tr = true) :
    takeTable (t ++ tr) = (t, tr) := by
  induction t with
  | nil =>
    cases tr with
    | nil => simp [takeTable]
    | cons l ls =>
      simp [headNotTable] at htr
      simp [takeTable, htr]
  | cons l t ih =>
    have hl : isTableLine l = true := ht l (List.mem_cons_self _ _)
    have ih' := ih (fun x hx => ht x (List.mem_cons_of_mem _ hx))
    simp [takeTable, hl, ih']

theorem firstNonBlank_eq (tr : List String)
    (h : tr.any (fun l => !isBlankLine l) = true) :
    ∃ l, firstNonBlank tr = some l ∧ l ∈ tr ∧ isBlankLine l = false := by
  induction tr with
  | nil => simp at h
  | cons l ls ih =>
    by_cases hb : isBlankLine l = true
    · simp [List.any_cons, hb] at h
      obtain ⟨x, hx, hnb⟩ := ih (by simp [List.any_eq_true]; exact h)
      exact ⟨x, by simp [firstNonBlank, hb, hx], List.mem_cons_of_mem _ hnb.1, hnb.2⟩
    · refine ⟨l, by simp [firstNonBlank, hb], List.mem_cons_self _ _, by simpa using hb⟩

theorem splitCells_ne_nil (cs : List Char) : splitCells cs ≠ [] := by
  cases cs with
  | nil => simp [splitCells]
  | cons c cs =>
    simp only [splitCells]
    split
    · simp
    · split <;> simp

theorem joinCells_splitCells (cs : List Char) : joinCells (splitCells cs) = cs := by
  induction cs with
  | nil => rfl
  | cons c cs ih =>
    simp only [splitCells]
    split
    · rename_i hc
      obtain ⟨y, ys, hys⟩ := List.exists_cons_of_ne_nil (splitCells_ne_nil cs)
      rw [hys]
      rw [hys] at ih
      simpa [joinCells, hc] using ih
    · rename_i hc
      cases hsp : splitCells cs with
      | nil => exact absurd hsp (splitCells_ne_nil cs)
      | cons x xs =>
        rw [hsp] at ih
        cases xs with
        | nil => simpa [joinCells] using ih
        | cons y ys => simpa [joinCells] using ih

theorem renderRow_parseRow (l : String) (r : Row) (h : parseRow l = some r) :
    renderRow r = l := by
  unfold parseRow at h
  split at h
  · rename_i a b c d heq
    rcases Option.some.inj h with rfl
    have hjoin : joinCells [[], a, b, c, d, []] = l.data := by
      rw [← heq]; exact joinCells_splitCells l.data
    unfold renderRow
    cases l with
    | mk d' => exact congrArg String.mk (by simpa using hjoin)
  · simp at h

theorem parseRows_ok (t : List String)
    (h : ∀ l ∈ t, (parseRow l).isSome = true) :
    ∃ rows, parseRows t = .ok rows ∧ rows.map renderRow = t := by
  induction t with
  | nil => exact ⟨[], rfl, rfl⟩
  | cons l ls ih =>
    have hl := h l (List.mem_cons_self _ _)
    obtain ⟨r, hr⟩ := Option.isSome_iff_exists.mp hl
    obtain ⟨rows, hrows, hmap⟩ := ih (fun x hx => h x (List.mem_cons_of_mem _ hx))
    refine ⟨r :: rows, ?_, ?_⟩
    · simp [parseRows, hr, hrows, Except.map]
    · simp [hmap, renderRow_parseRow l r hr]

/-! ## Lemmas about the protocol-block scanner -/

theorem isMarker_false {l : String} (h : isMarker l = false) :
    l ≠ startMarker ∧ l ≠ endMarker := by
  simpa [isMarker] using h

theorem startMarker_ne_endMarker : startMarker ≠ endMarker := by decide

theorem scanAfter_eq (a : List String) (ha : ∀ l ∈ a, isMarker l = false) :
    scanAfter a = some a := by
  induction a with
  | nil => rfl
  | cons l ls ih =>
    have hl := ha l (List.mem_cons_self _ _)
    simp [scanAfter, hl, ih (fun x hx => ha x (List.mem_cons_of_mem _ hx))]

theorem scanInside_eq (c a : List String)
    (hc : ∀ l ∈ c, isMarker l = false) (ha : ∀ l ∈ a, isMarker l = false) :
    scanInside (c ++ endMarker :: a) = some (c, a) := by
  induction c with
  | nil => simp [scanInside, scanAfter_eq a ha]
  | cons l ls ih =>
    obtain ⟨h1, h2⟩ := isMarker_false (hc l (List.mem_cons_self _ _))
    simp [scanInside, h1, h2, ih (fun x hx => hc x (List.mem_cons_of_mem _ hx))]

theorem scanBlock_found (b c a : List String)
    (hb : ∀ l ∈ b, isMarker l = false)
    (hc : ∀ l ∈ c, isMarker l = false)
    (ha : ∀ l ∈ a, isMarker l = false) :
    scanBlock (b ++ startMarker :: (c ++ endMarker :: a)) = .found b c a := by
  induction b with
  | nil => simp [scanBlock, scanInside_eq c a hc ha]
  | cons l ls ih =>
    obtain ⟨h1, h2⟩ := isMarker_false (hb l (List.mem_cons_self _ _))
    simp [scanBlock, h1, h2, ih (fun x hx => hb x (List.mem_cons_of_mem _ hx))]

theorem scanInside_no_end (rest : List String) (h : ∀ l ∈ rest, l ≠ endMarker) :
    scanInside rest = none := by
  induction rest with
  | nil => rfl
  | cons l ls ih =>
    have h1 := h l (List.mem_cons_self _ _)
    by_cases hs : l = startMarker
    · simp [scanInside, h1, hs, startMarker_ne_endMarker]
    · simp [scanInside, h1, hs, ih (fun x hx => h x (List.mem_cons_of_mem _ hx))]

theorem scanInside_dup_start (mid rest : List String)
    (hmid : ∀ l ∈ mid, isMarker l = false) :
    scanInside (mid ++ startMarker :: rest) = none := by
  induction mid with
  | nil => simp [scanInside, startMarker_ne_endMarker]
  | cons l ls ih =>
    obtain ⟨h1, h2⟩ := isMarker_false (hmid l (List.mem_cons_self _ _))
    simp [scanInside, h1, h2, ih (fun x hx => hmid x (List.mem_cons_of_mem _ hx))]

theorem scanBlock_inside_none (b rest : List String)
    (hb : ∀ l ∈ b, isMarker l = false) (h : scanInside rest = none) :
    scanBlock (b ++ startMarker :: rest) = .malformed := by
  induction b with
  | nil => simp [scanBlock, h]
  | cons l ls ih =>
    obtain ⟨h1, h2⟩ := isMarker_false (hb l (List.mem_cons_self _ _))
    simp [scanBlock, h1, h2, ih (fun x hx => hb x (List.mem_cons_of_mem _ hx))]

/-- C3 — For a host text containing exactly one well-formed protocol block
(marker-free prefix `b`, block content `c`, marker-free suffix `a`),
`upsert` with content equal to the present one returns the host
byte-identical, and in general changes only the span between and including
the markers: the output is `b`, the block with the new content, then `a`,
with every line outside the markers unchanged. -/
theorem upsert_pure (b c a newContent : List String)
    (hb : b.all (fun l => !isMarker l) = true)
    (hc : c.all (fun l => !isMarker l) = true)
    (ha : a.all (fun l => !isMarker l) = true) :
    (c = newContent →
      upsert (b ++ startMarker :: (c ++ endMarker :: a)) newContent =
        .ok (b ++ startMarker :: (c ++ endMarker :: a))) ∧
    upsert (b ++ startMarker :: (c ++ endMarker :: a)) newContent =
      .ok (b ++ startMarker :: (newContent ++ endMarker :: a)) := by
  have hb' : ∀ l ∈ b, isMarker l = false := fun x hx => by
    simpa using List.all_eq_true.mp hb x hx
  have hc' : ∀ l ∈ c, isMarker l = false := fun x hx => by
    simpa using List.all_eq_true.mp hc x hx
  have ha' : ∀ l ∈ a, isMarker l = false := fun x hx => by
    simpa using List.all_eq_true.mp ha x hx
  have hscan := scanBlock_found b c a hb' hc' ha'
  constructor
  · intro he
    subst he
    simp [upsert, hscan]
  · by_cases he : c = newContent
    · subst he
      simp [upsert, hscan]
    · simp [upsert, hscan, he]

/-- Witness for C3: on the outdated-tags fixture of
`setup_agent_outdated_tags`, upsert with the present content is a
byte-identical no-op, and upsert with the tool's content rewrites only the
marker-delimited span, preserving the prose after the block. -/
theorem upsert_pure_witness :
    upsert outdatedAgentLines ["# Old Protocol", "Do this."] = .ok outdatedAgentLines ∧
    upsert outdatedAgentLines protocolContent =
      .ok ([] ++ startMarker ::
        (protocolContent ++ endMarker :: ["", "# My Agent", "Existing rules."])) := by
  have e : outdatedAgentLines = [] ++ startMarker ::
      (["# Old Protocol", "Do this."] ++ endMarker :: ["", "# My Agent", "Existing rules."]) := by
    decide
  constructor
  · have h := (upsert_pure [] ["# Old Protocol", "Do this."]
      ["", "# My Agent", "Existing rules."] ["# Old Protocol", "Do this."]
      (by decide) (by decide) (by decide)).1 rfl
    rw [e]
    exact h
  · have h := (upsert_pure [] ["# Old Protocol", "Do this."]
      ["", "# My Agent", "Existing rules."] protocolContent
      (by decide) (by decide) (by decide)).2
    rw [e]
    exact h

/-- C4 — A host whose block is malformed (a start marker never followed by a
matching end-marker line, or a second start marker before any end) is
detected as `Malformed`; `upsert` fails with `MalformedBlockError` and the
effective file transformation leaves the host unchanged — never a
best-effort rewrite. -/
theorem malformed_refused (b mid rest rest2 newContent : List String)
    (hb : b.all (fun l => !isMarker l) = true)
    (hmid : mid.all (fun l => !isMarker l) = true)
    (hrest : rest.all (fun l => !(l = endMarker)) = true) :
    (detect (b ++ startMarker :: rest) newContent = .Malformed ∧
      upsert (b ++ startMarker :: rest) newContent = .error .malformedBlock ∧
      upsertFile (b ++ startMarker :: rest) newContent = b ++ startMarker :: rest) ∧
    (detect (b ++ startMarker :: (mid ++ startMarker :: rest2)) newContent = .Malformed ∧
      upsert (b ++ startMarker :: (mid ++ startMarker :: rest2)) newContent =
        .error .malformedBlock ∧
      upsertFile (b ++ startMarker :: (mid ++ startMarker :: rest2)) newContent =
        b ++ startMarker :: (mid ++ startMarker :: rest2)) := by
  have hb' : ∀ l ∈ b, isMarker l = false := fun x hx => by
    simpa using List.all_eq_true.mp hb x hx
  have hmid' : ∀ l ∈ mid, isMarker l = false := fun x hx => by
    simpa using List.all_eq_true.mp hmid x hx
  have hrest' : ∀ l ∈ rest, l ≠ endMarker := fun x hx => by
    simpa using List.all_eq_true.mp hrest x hx
  have h1 : scanBlock (b ++ startMarker :: rest) = .malformed :=
    scanBlock_inside_none b rest hb' (scanInside_no_end rest hrest')
  have h2 : scanBlock (b ++ startMarker :: (mid ++ startMarker :: rest2)) = .malformed :=
    scanBlock_inside_none b _ hb' (scanInside_dup_start mid rest2 hmid')
  exact ⟨⟨by simp [detect, h1], by simp [upsert, h1], by simp [upsertFile, upsert, h1]⟩,
    ⟨by simp [detect, h2], by simp [upsert, h2], by simp [upsertFile, upsert, h2]⟩⟩

/-- Witness for C4: the garbage-tags fixture of `setup_agent_garbage_tags`,
whose closing line is not the end marker, is detected as `Malformed`, upsert
fails, and the host text is unchanged. -/
theorem malformed_refused_witness :
    detect garbageAgentLines protocolContent = .Malformed ∧
    upsert garbageAgentLines protocolContent = .error .malformedBlock ∧
    upsertFile garbageAgentLines protocolContent = garbageAgentLines := by
  have h := (malformed_refused [] []
    ["# Broken Protocol", "<!-- BD_PROTOCOL_END missing -->", "", "# My Agent", "Existing rules."]
    [] protocolContent (by decide) (by decide) (by decide)).1
  have e : garbageAgentLines = [] ++ startMarker ::
      ["# Broken Protocol", "<!-- BD_PROTOCOL_END missing -->", "", "# My Agent", "Existing rules."] := by
    decide
  rw [e]
  exact h

/-- C1 — Any index document whose text contains non-whitespace content after
the last row of its table is rejected by `parse` with `TrailingContentError`
naming the offending line (the first non-whitespace trailing line): parsing
fails rather than silently truncating. -/
theorem parse_rejects_trailing_content (header table trailing : List String)
    (hh : header.all (fun l => !isTableLine l) = true)
    (ht : table.all isTableLine = true)
    (hne : headIsTable table = true)
    (hhead : headNotTable trailing = true)
    (hnb : trailing.any (fun l => !isBlankLine l) = true) :
    ∃ l, parse (header ++ table ++ trailing) = .error (.trailingContent l) ∧
      l ∈ trailing ∧ isBlankLine l = false := by
  obtain ⟨l, hfnb, hmem, hnbl⟩ := firstNonBlank_eq trailing hnb
  have hh' : ∀ x ∈ header, isTableLine x = false := by
    intro x hx
    have := List.all_eq_true.mp hh x hx
    simpa using this
  have ht' : ∀ x ∈ table, isTableLine x = true := fun x hx => List.all_eq_true.mp ht x hx
  have hsplit : splitAtTable (header ++ (table ++ trailing)) = (header, table ++ trailing) := by
    apply splitAtTable_eq _ _ hh'
    cases table with
    | nil => simp [headIsTable] at hne
    | cons x xs => simpa [headIsTable] using hne
  have htake : takeTable (table ++ trailing) = (table, trailing) :=
    takeTable_eq _ _ ht' hhead
  refine ⟨l, ?_, hmem, hnbl⟩
  unfold parse
  rw [List.append_assoc, hsplit]
  simp only [htake, hfnb]

/-- Witness for C1: the corrupt fixture index of `setup_existing_corrupt`,
where the sentence about the footer follows the table, is rejected with
`TrailingContentError` naming that sentence. -/
theorem parse_rejects_trailing_content_witness :
    ∃ l, parse corruptIndexLines = .error (.trailingContent l) ∧
      l ∈ ["", "This footer should not be here and should cause an error."] ∧
      isBlankLine l = false := by
  have h := parse_rejects_trailing_content
    [ "# Development Log Index", "", "## Work Index", "" ]
    [ "| Subject | Problems | Date | Devlog |"
    , "|---------|----------|------|---------|"
    , "| [init] Setup | Initial devlog structure setup | 2024-01-01 | [2024-01-01_setup.md](2024-01-01_setup.md) |" ]
    [ "", "This footer should not be here and should cause an error." ]
    (by decide) (by decide) (by decide) (by decide) (by decide)
  have e : corruptIndexLines =
      [ "# Development Log Index", "", "## Work Index", "" ] ++
      [ "| Subject | Problems | Date | Devlog |"
      , "|---------|----------|------|---------|"
      , "| [init] Setup | Initial devlog structure setup | 2024-01-01 | [2024-01-01_setup.md](2024-01-01_setup.md) |" ] ++
      [ "", "This footer should not be here and should cause an error." ] := by decide
  rw [e]
  exact h

/-- C2 — For every well-formed index text (header lines containing no table
line, followed by exactly one trailing four-column table, nothing after it),
`render` is the exact inverse of `parse`: the header is reproduced verbatim
and the rendered table is the final element of the document. -/
theorem render_parse_roundTrip (header table : List String)
    (hh : header.all (fun l => !isTableLine l) = true)
    (hne : headIsTable table = true)
    (ht : table.all isTableLine = true)
    (hrows : table.all (fun l => (parseRow l).isSome) = true) :
    ∃ idx, parse (header ++ table) = .ok idx ∧ render idx = header ++ table := by
  have hh' : ∀ x ∈ header, isTableLine x = false := by
    intro x hx
    have := List.all_eq_true.mp hh x hx
    simpa using this
  have ht' : ∀ x ∈ table, isTableLine x = true := fun x hx => List.all_eq_true.mp ht x hx
  have hsplit : splitAtTable (header ++ table) = (header, table) := by
    apply splitAtTable_eq _ _ hh'
    cases table with
    | nil => simp [headIsTable] at hne
    | cons x xs => simpa [headIsTable] using hne
  have htake : takeTable (table ++ ([] : List String)) = (table, []) :=
    takeTable_eq _ _ ht' (by simp [headNotTable])
  rw [List.append_nil] at htake
  obtain ⟨rows, hrows', hmap⟩ := parseRows_ok table
    (fun x hx => List.all_eq_true.mp hrows x hx)
  refine ⟨⟨header, rows⟩, ?_, ?_⟩
  · unfold parse
    rw [hsplit]
    simp only [htake, firstNonBlank, hrows', Except.map]
  · simp [render, hmap]

/-- Witness for C2: the clean fixture index of `setup_existing_clean`
round-trips: `render (parse cleanIndexLines) = cleanIndexLines`. -/
theorem render_parse_roundTrip_witness :
    ∃ idx, parse cleanIndexLines = .ok idx ∧ render idx = cleanIndexLines := by
  have h := render_parse_roundTrip
    [ "# Development Log Index"
    , ""
    , "> [!IMPORTANT]"
    , "> **AI AGENT INSTRUCTIONS:**"
    , "> 1. **APPEND ONLY:** Always add new session rows to the **existing table** at the bottom of this file."
    , "> 2. **NO DUPLICATES:** Never create a new \"Work Index\" header or a second table."
    , "> 3. **STAY AT BOTTOM:** Ensure the table remains the very last element in this file."
    , ""
    , "This index provides a concise record of all development work for easy scanning and pattern recognition across sessions."
    , ""
    , "## Nomenclature Rules:"
    , "- **[fix]** - Bug fixes and error resolution"
    , ""
    , "## Work Index"
    , "" ]
    [ "| Subject | Problems | Date | Devlog |"
    , "|---------|----------|------|---------|"
    , "| [init] Setup | Initial devlog structure setup | 2024-01-01 | [2024-01-01_setup.md](2024-01-01_setup.md) |" ]
    (by decide) (by decide) (by decide) (by decide)
  have e : cleanIndexLines =
    [ "# Development Log Index"
    , ""
    , "> [!IMPORTANT]"
    , "> **AI AGENT INSTRUCTIONS:**"
    , "> 1. **APPEND ONLY:** Always add new session rows to the **existing table** at the bottom of this file."
    , "> 2. **NO DUPLICATES:** Never create a new \"Work Index\" header or a second table."
    , "> 3. **STAY AT BOTTOM:** Ensure the table remains the very last element in this file."
    , ""
    , "This index provides a concise record of all development work for easy scanning and pattern recognition across sessions."
    , ""
    , "## Nomenclature Rules:"
    , "- **[fix]** - Bug fixes and error resolution"
    , ""
    , "## Work Index"
    , "" ] ++
    [ "| Subject | Problems | Date | Devlog |"
    , "|---------|----------|------|---------|"
    , "| [init] Setup | Initial devlog structure setup | 2024-01-01 | [2024-01-01_setup.md](2024-01-01_setup.md) |" ] := by decide
  rw [e]
  exact h

/-! ## Hook installer theorems -/

/-- C5 — Installing against an existing hook that lacks the ownership
signature returns `SkippedForeign` and leaves that file exactly unchanged
(a non-fatal outcome of the orchestrator's hook step, so the run still
succeeds), while installing against an absent hook creates an executable
file whose body is the tool's script, which contains the signature. -/
theorem hook_install_non_destructive (f : HookFile) (scriptBody : String)
    (hf : isOurs f.body = false) :
    install (some f) scriptBody = (.SkippedForeign, f) ∧
    stepHook (some f) = (.skippedForeign, f) ∧
    Outcome.isFatal (stepHook (some f)).1 = false ∧
    install none hookScript = (.Installed, ⟨hookScript, true⟩) ∧
    isOurs hookScript = true := by
  refine ⟨by simp [install, hf], by simp [stepHook, hf], ?_, rfl, by decide⟩
  simp [stepHook, hf, Outcome.isFatal]

/-- Witness for C5: the foreign hook of `setup_hook_conflict` (the script
that echoes about the existing hook) is skipped and untouched; the absent
case installs the signed script. -/
theorem hook_install_non_destructive_witness :
    install (some ⟨foreignHookBody, true⟩) hookScript =
      (.SkippedForeign, ⟨foreignHookBody, true⟩) ∧
    stepHook (some ⟨foreignHookBody, true⟩) = (.skippedForeign, ⟨foreignHookBody, true⟩) ∧
    Outcome.isFatal (stepHook (some ⟨foreignHookBody, true⟩)).1 = false ∧
    install none hookScript = (.Installed, ⟨hookScript, true⟩) ∧
    isOurs hookScript = true := by
  have h := hook_install_non_destructive ⟨foreignHookBody, true⟩ hookScript (by decide)
  exact ⟨h.1, h.2.1, h.2.2.1, h.2.2.2.1, h.2.2.2.2⟩

/-- C9 — The hook body written by `setup_hooks_installed` contains the
signature comment line, while the hook body written by `setup_hook_conflict`
does not, so the substring check classifies the former as ours and the
latter as foreign. -/
theorem hook_fixture_bodies_classified :
    containsSubstr ownedHookBody hookSignature = true ∧
    containsSubstr foreignHookBody hookSignature = false ∧
    isOurs ownedHookBody = true ∧
    isOurs foreignHookBody = false := by decide

/-! ## Probe and orchestrator theorems -/

theorem stepScaffold_fields (r : Repo) :
    (stepScaffold r).2.hasVcs = r.hasVcs ∧
    (stepScaffold r).2.devlogDir = true ∧
    (stepScaffold r).2.agentsMd = r.agentsMd ∧
    (stepScaffold r).2.cursorrules = r.cursorrules ∧
    (stepScaffold r).2.postCommit = r.postCommit ∧
    (stepScaffold r).2.postMerge = r.postMerge := by
  unfold stepScaffold
  split
  · rename_i h
    simpa using h
  · simp

theorem stepAgent_fields (r : Repo) :
    (stepAgent r).2.hasVcs = r.hasVcs ∧
    (stepAgent r).2.devlogDir = r.devlogDir ∧
    (stepAgent r).2.indexFile = r.indexFile ∧
    (stepAgent r).2.promptFile = r.promptFile ∧
    (stepAgent r).2.sidecarFile = r.sidecarFile ∧
    (stepAgent r).2.postCommit = r.postCommit ∧
    (stepAgent r).2.postMerge = r.postMerge := by
  unfold stepAgent
  cases r.agentsMd <;> simp
  cases r.cursorrules <;> simp

/-- C7 — On a working tree without version-control metadata the orchestrator
(the mutating operation) fails with `NotARepository` before performing any
write, leaving the tree unchanged, while the read-only probe never fails:
it is total and reports `hasVcs = false`. -/
theorem notARepository_aborts (r : Repo) (h : r.hasVcs = false) :
    run r = .notARepo ∧ runRepo r = r ∧ (probe r).hasVcs = false := by
  refine ⟨?_, ?_, ?_⟩
  · simp [run, h]
  · simp [runRepo, run, h]
  · simp [probe, h]

/-- Witness for C7: the git-not-initialized fixture aborts unchanged and
probes as `hasVcs = false`. -/
theorem notARepository_aborts_witness :
    run gitNotInitializedRepo = .notARepo ∧
    runRepo gitNotInitializedRepo = gitNotInitializedRepo ∧
    (probe gitNotInitializedRepo).hasVcs = false :=
  notARepository_aborts gitNotInitializedRepo rfl

/-- C8 — The probe determines the agent file by checking `AGENTS.md` before
`.cursorrules`, first match wins: when `AGENTS.md` exists the kind is
`AGENTS_MD` (whether or not `.cursorrules` exists); when only `.cursorrules`
exists the kind is `CURSORRULES` and `.cursorrules` is the host file the
orchestrator's block upsert writes to, `AGENTS.md` staying absent; when
neither exists the kind reports no agent file. -/
theorem agentFileKind_precedence (r : Repo) :
    (r.agentsMd.isSome = true → (probe r).agentFileKind = .AGENTS_MD) ∧
    (r.agentsMd = none → r.cursorrules.isSome = true →
      (probe r).agentFileKind = .CURSORRULES ∧
      (r.hasVcs = true → (runRepo r).agentsMd = none ∧
        (runRepo r).cursorrules = r.cursorrules.map (fun h => (agentAction h).2))) ∧
    (r.agentsMd = none → r.cursorrules = none →
      (probe r).agentFileKind = .noAgentFile) := by
  refine ⟨fun h => by simp [probe, h], fun hmd hcur => ⟨by simp [probe, hmd, hcur], ?_⟩,
    fun hmd hcur => by simp [probe, hmd, hcur]⟩
  intro hvcs
  obtain ⟨host, hhost⟩ := Option.isSome_iff_exists.mp hcur
  have hs := stepScaffold_fields r
  have hmd1 : (afterScaffold r).agentsMd = none := by
    rw [afterScaffold, hs.2.2.1, hmd]
  have hcur1 : (afterScaffold r).cursorrules = some host := by
    rw [afterScaffold, hs.2.2.2.1, hhost]
  have hagent : stepAgent (afterScaffold r) =
      ((agentAction host).1,
        { afterScaffold r with cursorrules := some (agentAction host).2 }) := by
    simp [stepAgent, hmd1, hcur1]
  simp only [runRepo, run, hvcs, if_true]
  constructor
  · show (afterHooks r).agentsMd = none
    calc (afterHooks r).agentsMd = (afterAgent r).agentsMd := rfl
      _ = none := by rw [afterAgent, hagent]; exact hmd1
  · show (afterHooks r).cursorrules = r.cursorrules.map fun h => (agentAction h).2
    calc (afterHooks r).cursorrules = (afterAgent r).cursorrules := rfl
      _ = some (agentAction host).2 := by rw [afterAgent, hagent]
      _ = r.cursorrules.map fun h => (agentAction h).2 := by rw [hhost]; rfl

/-- Witness for C8: the agent-file-variation fixture, where only
`.cursorrules` exists, probes as `CURSORRULES`, and after the run the block
went into `.cursorrules` while `AGENTS.md` still does not exist. -/
theorem agentFileKind_precedence_witness :
    (probe cursorVariationRepo).agentFileKind = .CURSORRULES ∧
    (runRepo cursorVariationRepo).agentsMd = none ∧
    (runRepo cursorVariationRepo).cursorrules =
      some (agentAction cursorRulesLines).2 := by
  have h := ((agentFileKind_precedence cursorVariationRepo).2.1 rfl (by decide))
  exact ⟨h.1, (h.2 rfl).1, by simpa using (h.2 rfl).2⟩

/-! ## Soundness of the block scan, and second-run stability -/

theorem isMarker_eq_false {l : String} (h1 : l ≠ startMarker) (h2 : l ≠ endMarker) :
    isMarker l = false := by
  simp [isMarker, h1, h2]

theorem scanAfter_sound (ls : List String) (a : List String) (h : scanAfter ls = some a) :
    ls = a ∧ ∀ l ∈ a, isMarker l = false := by
  induction ls generalizing a with
  | nil =>
    simp only [scanAfter, Option.some.injEq] at h
    subst h
    exact ⟨rfl, by simp⟩
  | cons l ls ih =>
    by_cases hm : isMarker l = true
    · simp [scanAfter, hm] at h
    · have hm' : isMarker l = false := by simpa using hm
      simp only [scanAfter, hm', Bool.false_eq_true, if_false] at h
      cases hsa : scanAfter ls with
      | none => rw [hsa] at h; simp at h
      | some a' =>
        rw [hsa] at h
        simp only [Option.map_some', Option.some.injEq] at h
        subst h
        obtain ⟨h1, h2⟩ := ih a' hsa
        subst h1
        refine ⟨rfl, fun x hx => ?_⟩
        rcases List.mem_cons.mp hx with rfl | hx
        · exact hm'
        · exact h2 x hx

theorem endMarker_ne_startMarker : endMarker ≠ startMarker := by decide

theorem scanInside_sound (ls : List String) (c a : List String)
    (h : scanInside ls = some (c, a)) :
    ls = c ++ endMarker :: a ∧ (∀ l ∈ c, isMarker l = false) ∧
      (∀ l ∈ a, isMarker l = false) := by
  induction ls generalizing c a with
  | nil => simp [scanInside] at h
  | cons l ls ih =>
    by_cases h1 : l = endMarker
    · subst h1
      cases hsa : scanAfter ls with
      | none => simp [scanInside, hsa] at h
      | some a' =>
        simp [scanInside, hsa] at h
        obtain ⟨hls, hfree⟩ := scanAfter_sound ls a' hsa
        obtain ⟨hc, ha⟩ := h
        subst hc
        subst ha
        subst hls
        exact ⟨rfl, by simp, hfree⟩
    · by_cases h2 : l = startMarker
      · simp [scanInside, h1, h2, startMarker_ne_endMarker] at h
      · cases hsi : scanInside ls with
        | none => simp [scanInside, h1, h2, hsi] at h
        | some p =>
          simp [scanInside, h1, h2, hsi] at h
          obtain ⟨hc, ha⟩ := h
          subst hc
          subst ha
          obtain ⟨hls, hcf, haf⟩ := ih p.1 p.2 (by rw [hsi])
          refine ⟨by rw [hls]; rfl, fun x hx => ?_, haf⟩
          rcases List.mem_cons.mp hx with rfl | hx
          · exact isMarker_eq_false h2 h1
          · exact hcf x hx

theorem scanBlock_found_sound (ls : List String) (b c a : List String)
    (h : scanBlock ls = .found b c a) :
    ls = b ++ startMarker :: (c ++ endMarker :: a) ∧
      (∀ l ∈ b, isMarker l = false) ∧ (∀ l ∈ c, isMarker l = false) ∧
      (∀ l ∈ a, isMarker l = false) := by
  induction ls generalizing b c a with
  | nil => simp [scanBlock] at h
  | cons l ls ih =>
    by_cases h1 : l = startMarker
    · subst h1
      cases hsi : scanInside ls with
      | none => simp [scanBlock, hsi] at h
      | some p =>
        simp [scanBlock, hsi] at h
        obtain ⟨hb, hc, ha⟩ := h
        subst hb
        subst hc
        subst ha
        obtain ⟨hls, hcf, haf⟩ := scanInside_sound ls p.1 p.2 (by rw [hsi])
        exact ⟨by rw [hls]; rfl, by simp, hcf, haf⟩
    · by_cases h2 : l = endMarker
      · simp [scanBlock, h1, h2, endMarker_ne_startMarker] at h
      · cases hsb : scanBlock ls with
        | absent => simp [scanBlock, h1, h2, hsb] at h
        | malformed => simp [scanBlock, h1, h2, hsb] at h
        | found b' c' a' =>
          simp [scanBlock, h1, h2, hsb] at h
          obtain ⟨hb, hc, ha⟩ := h
          subst hb
          subst hc
          subst ha
          obtain ⟨hls, hbf, hcf, haf⟩ := ih b' c' a' hsb
          refine ⟨by rw [hls]; rfl, fun x hx => ?_, hcf, haf⟩
          rcases List.mem_cons.mp hx with rfl | hx
          · exact isMarker_eq_false h1 h2
          · exact hbf x hx

theorem scanBlock_absent_sound (ls : List String) (h : scanBlock ls = .absent) :
    ∀ l ∈ ls, isMarker l = false := by
  induction ls with
  | nil => intro l hl; cases hl
  | cons l ls ih =>
    by_cases h1 : l = startMarker
    · exfalso
      subst h1
      cases hsi : scanInside ls with
      | none => simp [scanBlock, hsi] at h
      | some p => simp [scanBlock, hsi] at h
    · by_cases h2 : l = endMarker
      · exfalso
        simp [scanBlock, h1, h2, endMarker_ne_startMarker] at h
      · cases hsb : scanBlock ls with
        | absent =>
          intro x hx
          rcases List.mem_cons.mp hx with rfl | hx
          · exact isMarker_eq_false h1 h2
          · exact ih hsb x hx
        | malformed => simp [scanBlock, h1, h2, hsb] at h
        | found b' c' a' => simp [scanBlock, h1, h2, hsb] at h

theorem protocolContent_no_marker : ∀ l ∈ protocolContent, isMarker l = false := by decide

theorem agentTemplate_current : agentAction agentTemplate = (.noChange, agentTemplate) := by
  decide

theorem agentAction_second (host : List String) :
    agentAction (agentAction host).2 =
      ((if (agentAction host).1 = .failedMalformedBlock then .failedMalformedBlock
        else .noChange), (agentAction host).2) := by
  cases hsb : scanBlock host with
  | absent =>
    have hfree := scanBlock_absent_sound host hsb
    have hd : detect host protocolContent = .Absent := by simp [detect, hsb]
    have hup : upsertFile host protocolContent =
        host ++ startMarker :: (protocolContent ++ [endMarker]) := by
      simp [upsertFile, upsert, hsb]
    have hscan2 : scanBlock (host ++ startMarker :: (protocolContent ++ endMarker :: [])) =
        .found host protocolContent [] :=
      scanBlock_found host protocolContent [] hfree protocolContent_no_marker (by simp)
    have hah : agentAction host = (.upgraded, upsertFile host protocolContent) := by
      simp [agentAction, hd]
    have hd2 : detect (upsertFile host protocolContent) protocolContent = .Current := by
      rw [hup]
      simp [detect, hscan2]
    rw [hah]
    simp [agentAction, hd2]
  | malformed =>
    have hd : detect host protocolContent = .Malformed := by simp [detect, hsb]
    have hah : agentAction host = (.failedMalformedBlock, host) := by
      simp [agentAction, hd]
    rw [hah]
    simp [agentAction, hd]
  | found b c a =>
    obtain ⟨hls, hb, hc, ha⟩ := scanBlock_found_sound host b c a hsb
    by_cases hce : c = protocolContent
    · have hd : detect host protocolContent = .Current := by simp [detect, hsb, hce]
      have hah : agentAction host = (.noChange, host) := by simp [agentAction, hd]
      rw [hah]
      simp [agentAction, hd]
    · have hd : detect host protocolContent = .Outdated := by simp [detect, hsb, hce]
      have hup : upsertFile host protocolContent =
          b ++ startMarker :: (protocolContent ++ endMarker :: a) := by
        simp [upsertFile, upsert, hsb, hce]
      have hscan2 : scanBlock (b ++ startMarker :: (protocolContent ++ endMarker :: a)) =
          .found b protocolContent a :=
        scanBlock_found b protocolContent a hb protocolContent_no_marker ha
      have hah : agentAction host = (.upgraded, upsertFile host protocolContent) := by
        simp [agentAction, hd]
      have hd2 : detect (upsertFile host protocolContent) protocolContent = .Current := by
        rw [hup]
        simp [detect, hscan2]
      rw [hah]
      simp [agentAction, hd2]

theorem isOurs_hookScript : isOurs hookScript = true := by decide

theorem stepHook_second (prior : Option HookFile) :
    stepHook (some (stepHook prior).2) =
      ((if (stepHook prior).1 = .skippedForeign then .skippedForeign else .noChange),
        (stepHook prior).2) := by
  cases prior with
  | none => simp [stepHook, isOurs_hookScript]
  | some f =>
    by_cases ho : isOurs f.body = true
    · by_cases he : f = ⟨hookScript, true⟩
      · subst he
        simp [stepHook, ho]
      · simp [stepHook, ho, he, isOurs_hookScript]
    · have ho' : isOurs f.body = false := by simpa using ho
      simp [stepHook, ho']

theorem stepAgent_second_general (s : Repo) (x y : Option HookFile) :
    stepAgent { (stepAgent s).2 with postCommit := x, postMerge := y } =
      ((if (stepAgent s).1 = .failedMalformedBlock then .failedMalformedBlock
        else .noChange),
        { (stepAgent s).2 with postCommit := x, postMerge := y }) := by
  cases hmd : s.agentsMd with
  | some host =>
    simp [stepAgent, hmd, agentAction_second host]
  | none =>
    cases hcur : s.cursorrules with
    | some host => simp [stepAgent, hmd, hcur, agentAction_second host]
    | none => simp [stepAgent, hmd, hcur, agentTemplate_current]

theorem run_second (r : Repo) (h : r.hasVcs = true) :
    run r = .ran (runOutcomes r) (afterHooks r) ∧
    run (afterHooks r) = .ran
      ⟨.noChange, (runOutcomes r).indexCheck, (runOutcomes r).promptCheck,
        (if (runOutcomes r).agentFile = .failedMalformedBlock then .failedMalformedBlock
          else .noChange),
        (if (runOutcomes r).hookPostCommit = .skippedForeign then .skippedForeign
          else .noChange),
        (if (runOutcomes r).hookPostMerge = .skippedForeign then .skippedForeign
          else .noChange)⟩
      (afterHooks r) := by
  have hvcs6 : (afterHooks r).hasVcs = true := by
    have e1 : (afterHooks r).hasVcs = (afterAgent r).hasVcs := rfl
    rw [e1, afterAgent, (stepAgent_fields (afterScaffold r)).1, afterScaffold,
      (stepScaffold_fields r).1, h]
  have hdir6 : (afterHooks r).devlogDir = true := by
    have e1 : (afterHooks r).devlogDir = (afterAgent r).devlogDir := rfl
    rw [e1, afterAgent, (stepAgent_fields (afterScaffold r)).2.1, afterScaffold,
      (stepScaffold_fields r).2.1]
  have hidx6 : (afterHooks r).indexFile = (afterScaffold r).indexFile := by
    have e1 : (afterHooks r).indexFile = (afterAgent r).indexFile := rfl
    rw [e1, afterAgent, (stepAgent_fields (afterScaffold r)).2.2.1]
  have hpr6 : (afterHooks r).promptFile = (afterScaffold r).promptFile := by
    have e1 : (afterHooks r).promptFile = (afterAgent r).promptFile := rfl
    rw [e1, afterAgent, (stepAgent_fields (afterScaffold r)).2.2.2.1]
  have hscaf6 : stepScaffold (afterHooks r) = (.noChange, afterHooks r) := by
    simp [stepScaffold, hdir6]
  have hafterScaf6 : afterScaffold (afterHooks r) = afterHooks r := by
    rw [afterScaffold, hscaf6]
  have hic6 : stepIndexCheck (afterHooks r) = stepIndexCheck (afterScaffold r) := by
    unfold stepIndexCheck
    rw [hidx6]
  have hpc6 : stepPromptCheck (afterHooks r) = stepPromptCheck (afterScaffold r) := by
    unfold stepPromptCheck
    rw [hpr6]
  have hagent6 : stepAgent (afterHooks r) =
      ((if (stepAgent (afterScaffold r)).1 = .failedMalformedBlock then .failedMalformedBlock
        else .noChange), afterHooks r) := by
    have e : afterHooks r = { (stepAgent (afterScaffold r)).2 with
        postCommit := some (stepHook (afterAgent r).postCommit).2
      , postMerge := some (stepHook (afterAgent r).postMerge).2 } := rfl
    rw [e, stepAgent_second_general]
  have hafterAgent6 : afterAgent (afterHooks r) = afterHooks r := by
    rw [afterAgent, hafterScaf6, hagent6]
  have hpcm6 : (afterHooks r).postCommit = some (stepHook (afterAgent r).postCommit).2 := rfl
  have hpmm6 : (afterHooks r).postMerge = some (stepHook (afterAgent r).postMerge).2 := rfl
  have hhook6pc : stepHook (afterHooks r).postCommit =
      ((if (stepHook (afterAgent r).postCommit).1 = .skippedForeign then .skippedForeign
        else .noChange), (stepHook (afterAgent r).postCommit).2) := by
    rw [hpcm6]
    exact stepHook_second _
  have hhook6pm : stepHook (afterHooks r).postMerge =
      ((if (stepHook (afterAgent r).postMerge).1 = .skippedForeign then .skippedForeign
        else .noChange), (stepHook (afterAgent r).postMerge).2) := by
    rw [hpmm6]
    exact stepHook_second _
  have hfinal : afterHooks (afterHooks r) = afterHooks r := by
    show { afterAgent (afterHooks r) with
        postCommit := some (stepHook (afterAgent (afterHooks r)).postCommit).2
      , postMerge := some (stepHook (afterAgent (afterHooks r)).postMerge).2 } = afterHooks r
    rw [hafterAgent6, hhook6pc, hhook6pm]
    rw [show ((if (stepHook (afterAgent r).postCommit).1 = .skippedForeign then
        Outcome.skippedForeign else Outcome.noChange),
        (stepHook (afterAgent r).postCommit).2).2 = (stepHook (afterAgent r).postCommit).2
      from rfl]
    rw [← hpcm6, ← hpmm6]
  refine ⟨by simp [run, h], ?_⟩
  simp only [run, hvcs6, if_true]
  rw [hfinal]
  have hreports : runOutcomes (afterHooks r) =
      ⟨.noChange, (runOutcomes r).indexCheck, (runOutcomes r).promptCheck,
        (if (runOutcomes r).agentFile = .failedMalformedBlock then .failedMalformedBlock
          else .noChange),
        (if (runOutcomes r).hookPostCommit = .skippedForeign then .skippedForeign
          else .noChange),
        (if (runOutcomes r).hookPostMerge = .skippedForeign then .skippedForeign
          else .noChange)⟩ := by
    unfold runOutcomes
    rw [hscaf6, hafterScaf6, hic6, hpc6, hagent6, hafterAgent6, hhook6pc, hhook6pm]
  rw [hreports]

theorem stepIndexCheck_cases (r : Repo) :
    stepIndexCheck r = .noChange ∨ ∃ l, stepIndexCheck r = .failedCorrupt l := by
  unfold stepIndexCheck
  cases r.indexFile with
  | none => exact .inl rfl
  | some ls =>
    cases hp : parse ls with
    | ok idx => exact .inl (by simp [hp])
    | error e =>
      cases e with
      | trailingContent l => exact .inr ⟨l, by simp [hp]⟩
      | malformedRow l => exact .inr ⟨l, by simp [hp]⟩

theorem stepPromptCheck_cases (r : Repo) :
    stepPromptCheck r = .noChange ∨ stepPromptCheck r = .failedMissingPrompt := by
  unfold stepPromptCheck
  split
  · exact .inl rfl
  · exact .inr rfl

theorem stepIndexCheck_not_mutating (r : Repo) : (stepIndexCheck r).mutating = false := by
  rcases stepIndexCheck_cases r with hic | ⟨l, hic⟩ <;> rw [hic] <;> rfl

theorem stepPromptCheck_not_mutating (r : Repo) : (stepPromptCheck r).mutating = false := by
  rcases stepPromptCheck_cases r with hpc | hpc <;> rw [hpc] <;> rfl

theorem mutatingIte (c : Prop) [Decidable c] (x y : Outcome)
    (hx : x.mutating = false) (hy : y.mutating = false) :
    (if c then x else y).mutating = false := by
  split
  · exact hx
  · exact hy

/-- C6 (amended) — Running the orchestrator twice in succession leaves every
file's contents byte-identical to after the first run (also on a tree
without version control, which is aborted unchanged both times), and the
second run performs no mutation; every already-satisfied action reports
'no change', while failed actions and foreign-hook warnings are reported
identically again rather than as 'no change'.  In particular, when the first
run ends `Ready` with no foreign-hook warning, the second run reports
'no change' for every action: such a repository is a fixed point of the
orchestrator. -/
theorem run_idempotent (r : Repo) :
    runRepo (runRepo r) = runRepo r ∧
    (∀ re₂, runReports (runRepo r) = some re₂ → re₂.noMutation = true) ∧
    (∀ re₁ re₂, runReports r = some re₁ → runReports (runRepo r) = some re₂ →
      re₁.ready = true → re₁.noForeign = true → re₂.allNoChange = true) := by
  by_cases h : r.hasVcs = true
  · obtain ⟨h1, h2⟩ := run_second r h
    have hrr : runRepo r = afterHooks r := by simp [runRepo, h1]
    refine ⟨?_, ?_, ?_⟩
    · rw [hrr]
      simp [runRepo, h2]
    · intro re₂ hre₂
      rw [hrr] at hre₂
      simp only [runReports, h2] at hre₂
      obtain rfl := Option.some.inj hre₂
      have m2 : Outcome.mutating (runOutcomes r).indexCheck = false :=
        stepIndexCheck_not_mutating (afterScaffold r)
      have m3 : Outcome.mutating (runOutcomes r).promptCheck = false :=
        stepPromptCheck_not_mutating (afterScaffold r)
      have m4 := mutatingIte ((runOutcomes r).agentFile = .failedMalformedBlock)
        Outcome.failedMalformedBlock Outcome.noChange rfl rfl
      have m5 := mutatingIte ((runOutcomes r).hookPostCommit = .skippedForeign)
        Outcome.skippedForeign Outcome.noChange rfl rfl
      have m6 := mutatingIte ((runOutcomes r).hookPostMerge = .skippedForeign)
        Outcome.skippedForeign Outcome.noChange rfl rfl
      simp only [Reports.noMutation, Bool.and_eq_true, Bool.not_eq_true']
      exact ⟨⟨⟨⟨⟨rfl, m2⟩, m3⟩, m4⟩, m5⟩, m6⟩
    · intro re₁ re₂ hre₁ hre₂ hready hforeign
      simp only [runReports, h1] at hre₁
      obtain rfl := Option.some.inj hre₁
      rw [hrr] at hre₂
      simp only [runReports, h2] at hre₂
      obtain rfl := Option.some.inj hre₂
      simp only [Reports.ready, Bool.and_eq_true, Bool.not_eq_true'] at hready
      simp only [Reports.noForeign, Bool.and_eq_true, Bool.not_eq_true',
        decide_eq_false_iff_not] at hforeign
      have hidx : (runOutcomes r).indexCheck = .noChange := by
        rcases stepIndexCheck_cases (afterScaffold r) with hic | ⟨l, hic⟩
        · exact hic
        · exfalso
          have hf : ((runOutcomes r).indexCheck).isFatal = false := hready.1.1.1.1.2
          rw [show (runOutcomes r).indexCheck = stepIndexCheck (afterScaffold r) from rfl,
            hic] at hf
          simp [Outcome.isFatal] at hf
      have hprompt : (runOutcomes r).promptCheck = .noChange := by
        rcases stepPromptCheck_cases (afterScaffold r) with hpc | hpc
        · exact hpc
        · exfalso
          have hf : ((runOutcomes r).promptCheck).isFatal = false := hready.1.1.1.2
          rw [show (runOutcomes r).promptCheck = stepPromptCheck (afterScaffold r) from rfl,
            hpc] at hf
          simp [Outcome.isFatal] at hf
      have hagent : (if (runOutcomes r).agentFile = .failedMalformedBlock then
          Outcome.failedMalformedBlock else Outcome.noChange) = .noChange := by
        rw [if_neg]
        intro hEq
        have hf : ((runOutcomes r).agentFile).isFatal = false := hready.1.1.2
        rw [hEq] at hf
        simp [Outcome.isFatal] at hf
      have hhc : (if (runOutcomes r).hookPostCommit = .skippedForeign then
          Outcome.skippedForeign else Outcome.noChange) = .noChange := if_neg hforeign.1
      have hhm : (if (runOutcomes r).hookPostMerge = .skippedForeign then
          Outcome.skippedForeign else Outcome.noChange) = .noChange := if_neg hforeign.2
      simp [Reports.allNoChange, hidx, hprompt, hagent, hhc, hhm]
  · have h' : r.hasVcs = false := by simpa using h
    have hnr : run r = .notARepo := by simp [run, h']
    have hrr : runRepo r = r := by simp [runRepo, hnr]
    refine ⟨by rw [hrr, hrr], ?_, ?_⟩
    · intro re₂ hre₂
      rw [hrr] at hre₂
      simp [runReports, hnr] at hre₂
    · intro re₁ re₂ hre₁ hre₂ hready hforeign
      simp [runReports, hnr] at hre₁

set_option maxRecDepth 100000 in
/-- Witness for C6: the fresh fixture repository's first run ends `Ready`
with no foreign hooks, and the theorem yields a byte-identical second run
reporting 'no change' for every action. -/
theorem run_idempotent_witness :
    runRepo (runRepo freshRepo) = runRepo freshRepo ∧
    ∃ re₂, runReports (runRepo freshRepo) = some re₂ ∧ re₂.allNoChange = true := by
  obtain ⟨h1, h2, h3⟩ := run_idempotent freshRepo
  have e1 : runReports freshRepo =
      some ⟨.created, .noChange, .noChange, .created, .installed, .installed⟩ := by decide
  have e2 : runReports (runRepo freshRepo) =
      some ⟨.noChange, .noChange, .noChange, .noChange, .noChange, .noChange⟩ := by decide
  exact ⟨h1, ⟨_, e2, h3 _ _ e1 e2 (by decide) (by decide)⟩⟩

set_option maxRecDepth 100000 in
/-- Counterexample to C6 as stated: for the corrupt-index fixture repository
the second run does not report 'no change' for every action — the index
check reports the same corruption failure again (even though the tree is
indeed byte-identical after the second run). -/
theorem run_twice_corrupt_counterexample :
    (runReports (runRepo corruptRepo)).map Reports.allNoChange = some false ∧
    (runReports (runRepo corruptRepo)).map Reports.indexCheck =
      some (.failedCorrupt "This footer should not be here and should cause an error.") ∧
    runRepo (runRepo corruptRepo) = runRepo corruptRepo := by
  refine ⟨by decide, by decide, by decide⟩

/-! ## The sandbox writer theorem -/

theorem chain_self_mem (d : String) (h : ¬d = "") : d ∈ chain d := by
  unfold chain chainAux
  simp [h]

/-- C10 — `write_file` of `setup_sandbox_1.py` first creates all missing
parent directories (with `exist_ok`, so `makedirs` on a pre-existing
directory is not an error) and calls `makedirs` only when the dirname is
non-empty, so the write succeeds whether or not the parent directory exists,
and a bare filename in the current directory is handled without error,
leaving the directory set untouched. -/
theorem write_file_succeeds (fs : FS) (path content : String) :
    (∃ fs', write_file fs path content = .ok fs' ∧
      (path, content) ∈ fs'.files ∧
      (dirname path = "" → fs'.dirs = fs.dirs)) ∧
    (∀ d, ∃ fs2, makedirs fs d true = .ok fs2) := by
  constructor
  · by_cases hd : dirname path = ""
    · refine ⟨⟨fs.dirs, (path, content) :: fs.files.filter (fun q => !(q.1 = path))⟩,
        ?_, List.mem_cons_self _ _, fun _ => rfl⟩
      simp [write_file, hd, openWrite]
    · have hmk : makedirs fs (dirname path) true =
          .ok { fs with dirs := chain (dirname path) ++ fs.dirs } := by
        simp [makedirs]
      have hcont : (chain (dirname path) ++ fs.dirs).contains (dirname path) = true :=
        List.elem_eq_true_of_mem (List.mem_append_left _ (chain_self_mem _ hd))
      refine ⟨⟨chain (dirname path) ++ fs.dirs,
        (path, content) :: fs.files.filter (fun q => !(q.1 = path))⟩,
        ?_, List.mem_cons_self _ _, fun h => absurd h hd⟩
      simp only [write_file, hd, if_false, hmk, openWrite, hcont, Bool.or_true,
        if_true]
  · intro d
    exact ⟨{ fs with dirs := chain d ++ fs.dirs }, by simp [makedirs]⟩

/-- Witness for C10: writing a bare filename into an empty filesystem and a
nested path whose parent already exists both succeed, the former leaving the
directory set untouched. -/
theorem write_file_succeeds_witness :
    (∃ fs', write_file ⟨[], []⟩ "notes.md" "x" = .ok fs' ∧
      ("notes.md", "x") ∈ fs'.files ∧
      (dirname "notes.md" = "" → fs'.dirs = ([] : List String))) ∧
    (∃ fs', write_file ⟨["_sandbox"], []⟩ "_sandbox/_utils/f.py" "y" = .ok fs' ∧
      ("_sandbox/_utils/f.py", "y") ∈ fs'.files) := by
  constructor
  · obtain ⟨⟨fs', h1, h2, h3⟩, -⟩ := write_file_succeeds ⟨[], []⟩ "notes.md" "x"
    exact ⟨fs', h1, h2, h3⟩
  · obtain ⟨⟨fs', h1, h2, -⟩, -⟩ :=
      write_file_succeeds ⟨["_sandbox"], []⟩ "_sandbox/_utils/f.py" "y"
    exact ⟨fs', h1, h2⟩

end BeadsLog
